import Mathlib

/-!
Verification of `src/component_vis/multimodel_evaluation.py`.

The module contains three functions over lists of opaque "CP tensor" model
objects:

* `similarity_evaluation(cp_tensor, comparison_cp_tensors, similarity_metric,
  **kwargs)` — a list comprehension applying the metric to the primary model
  and each comparison model in order;
* `get_model_with_lowest_error(cp_tensors, X, error_function)` — a running-
  minimum loop, starting from `lowest_sse = np.inf`, that updates the selected
  model/index only on a strict `<` comparison, and collects every error in
  `all_sse`;
* `sort_models_by_error(cp_tensors, X, error_function)` — reuses the error
  list of `get_model_with_lowest_error`, sorts `zip(errors, cp_tensors)` with
  Python's `sorted` (stable ascending sort driven by tuple `<`), and returns
  the models paired with `np.asarray(error).item()`-coerced errors.

Error values are IEEE-style Python floats (possibly wrapped in a boxed /
labelled array-scalar such as a 0-d xarray); we embed them as `PyFloat`
(a rational, `+inf`, or `nan`) wrapped in `ErrVal`, with the comparison
semantics of Python floats (`nan` incomparable, comparisons on boxed scalars
delegating to the wrapped value).  Model objects stay opaque: a type `α`
together with the Boolean operations (`==` / `<`) Python would invoke on them
during tuple comparison.  Python's `sorted` is embedded as the stable
ascending insertion sort `pySorted` driven by the same comparison; for
strict-weak-order comparisons this coincides with CPython's stable sort.
-/

/-- A Python float as it matters here: a finite value (embedded as a
rational), positive infinity (`np.inf`), or `nan`. -/
inductive PyFloat where
  | num : ℚ → PyFloat
  | inf : PyFloat
  | nan : PyFloat
deriving DecidableEq, Repr

namespace PyFloat

/-- Python `<` on floats: `nan` compares `False` with everything, `inf` is
strictly above every finite value and not below itself. -/
def blt : PyFloat → PyFloat → Bool
  | num a, num b => decide (a < b)
  | num _, inf => true
  | num _, nan => false
  | inf, _ => false
  | nan, _ => false

/-- Python `<=` on floats (`nan` compares `False` with everything). -/
def ble : PyFloat → PyFloat → Bool
  | num a, num b => decide (a ≤ b)
  | num _, inf => true
  | num _, nan => false
  | inf, inf => true
  | inf, _ => false
  | nan, _ => false

/-- Python `==` on floats (`nan == nan` is `False`). -/
def beq : PyFloat → PyFloat → Bool
  | num a, num b => decide (a = b)
  | inf, inf => true
  | _, _ => false

theorem blt_irrefl (a : PyFloat) : a.blt a = false := by
  cases a <;> simp [blt]

theorem blt_asymm {a b : PyFloat} (h : a.blt b = true) : b.blt a = false := by
  cases a <;> cases b <;> simp_all [blt] <;> linarith

theorem blt_trans {a b c : PyFloat} (h1 : a.blt b = true) (h2 : b.blt c = true) :
    a.blt c = true := by
  cases a <;> cases b <;> cases c <;> simp_all [blt] <;> linarith

theorem beq_blt_left {a b : PyFloat} (h : a.beq b = true) : a.blt b = false := by
  cases a <;> cases b <;> simp_all [beq, blt]

theorem beq_blt_right {a b : PyFloat} (h : a.beq b = true) : b.blt a = false := by
  cases a <;> cases b <;> simp_all [beq, blt]

/-- Trichotomy for non-`nan` floats. -/
theorem blt_total {a b : PyFloat} (ha : a ≠ nan) (hb : b ≠ nan) :
    a.blt b = true ∨ b.blt a = true ∨ a = b := by
  cases a <;> cases b <;> simp_all [blt]
  rename_i x y
  rcases lt_trichotomy x y with h | h | h
  · exact Or.inl h
  · exact Or.inr (Or.inr h)
  · exact Or.inr (Or.inl h)

theorem ble_of_not_blt {a b : PyFloat} (ha : a ≠ nan) (hb : b ≠ nan)
    (h : b.blt a = false) : a.ble b = true := by
  cases a <;> cases b <;> simp_all [blt, ble] <;> linarith

/-- Transitivity of "not strictly above", provided the middle value is not
`nan` (this is the only shape of transitivity the sort proof needs, and it
holds even when the outer values are `nan`). -/
theorem not_blt_trans {a b c : PyFloat} (hb : b ≠ nan)
    (h1 : blt b a = false) (h2 : blt c b = false) : blt c a = false := by
  cases a <;> cases b <;> cases c <;> simp_all [blt] <;> linarith

end PyFloat

/-- An error value as returned by an error function: either a bare Python
float, or a labelled/boxed array scalar (e.g. a 0-d xarray `DataArray`)
wrapping a float.  Comparisons on boxed scalars delegate to the wrapped
value, which is how numpy/xarray 0-d comparisons behave under `bool(...)`. -/
inductive ErrVal where
  | plain : PyFloat → ErrVal
  | boxed : PyFloat → ErrVal
deriving DecidableEq, Repr

namespace ErrVal

/-- The numeric value carried by an error value. -/
def value : ErrVal → PyFloat
  | plain v => v
  | boxed v => v

/-- `np.asarray(error).item()`: extract the wrapped value as a plain
Python float. -/
def item (e : ErrVal) : PyFloat := e.value

/-- Python `<` between error values (possibly boxed scalars). -/
def blt (a b : ErrVal) : Bool := a.value.blt b.value

/-- Python `==` between error values (possibly boxed scalars). -/
def beq (a b : ErrVal) : Bool := a.value.beq b.value

/-- Whether the error value is a boxed/labelled scalar wrapper. -/
def isBoxed : ErrVal → Bool
  | plain _ => false
  | boxed _ => true

end ErrVal

/-- `similarity_evaluation` (multimodel_evaluation.py, lines 12-39): the list
comprehension `[similarity_metric(cp_tensor, c, **kwargs) for c in
comparison_cp_tensors]`.  `kwargs` is embedded as a single opaque value of
type `κ` forwarded verbatim.  The `similarity_metric is None` default branch
is outside the claims' scope: the metric argument is always supplied. -/
def similarity_evaluation {α κ σ : Type} (cp_tensor : α)
    (comparison_cp_tensors : List α) (similarity_metric : α → α → κ → σ)
    (kwargs : κ) : List σ :=
  comparison_cp_tensors.map (fun c => similarity_metric cp_tensor c kwargs)

/-- The `for i, cp_tensor in enumerate(cp_tensors)` loop of
`get_model_with_lowest_error` (multimodel_evaluation.py, lines 79-84),
carrying the loop state `(selected_cp_tensor, selected_index, lowest_sse,
all_sse)`. -/
def gmleGo {α β : Type} (X : β) (error_function : α → β → ErrVal) :
    List α → ℕ → Option α → Option ℕ → ErrVal → List ErrVal →
    Option α × Option ℕ × List ErrVal
  | [], _, sel, selIdx, _, all => (sel, selIdx, all)
  | cp_tensor :: rest, i, sel, selIdx, lowest_sse, all =>
    let sse := error_function cp_tensor X
    if sse.blt lowest_sse then
      gmleGo X error_function rest (i + 1) (some cp_tensor) (some i) sse (all ++ [sse])
    else
      gmleGo X error_function rest (i + 1) sel selIdx lowest_sse (all ++ [sse])

/-- `get_model_with_lowest_error` (multimodel_evaluation.py, lines 42-86):
running minimum starting from `selected_cp_tensor = None`,
`selected_index = None`, `lowest_sse = np.inf`, `all_sse = []`.  The
`error_function is None` default branch is outside the claims' scope: the
error function is always supplied. -/
def get_model_with_lowest_error {α β : Type} (cp_tensors : List α) (X : β)
    (error_function : α → β → ErrVal) : Option α × Option ℕ × List ErrVal :=
  gmleGo X error_function cp_tensors 0 none none (ErrVal.plain PyFloat.inf) []

/-- Python `<` on the pairs `(error, cp_tensor)` built by
`zip(errors, cp_tensors)`: tuple comparison checks the first components with
`==` and, only if they are equal, falls through to the second components
(`==`, then `<`).  `meq`/`mlt` are the `==`/`<` the model objects provide. -/
def pairLt {α : Type} (meq mlt : α → α → Bool) (p q : ErrVal × α) : Bool :=
  if ErrVal.beq p.1 q.1 then
    if meq p.2 q.2 then false else mlt p.2 q.2
  else
    ErrVal.blt p.1 q.1

/-- The "comes no later than" test a stable ascending sort derives from the
strict comparison `pairLt`. -/
def pairLe {α : Type} (meq mlt : α → α → Bool) (p q : ErrVal × α) : Bool :=
  !(pairLt meq mlt q p)

/-- Insert `x` into `l` before the first element `y` with `le x y`
(stable insertion for an ascending sort). -/
def pyInsert {γ : Type} (le : γ → γ → Bool) (x : γ) : List γ → List γ
  | [] => [x]
  | y :: ys => if le x y then x :: y :: ys else y :: pyInsert le x ys

/-- Stable ascending sort: the semantics of Python's `sorted` (for
strict-weak-order comparisons this is exactly the order `sorted` returns). -/
def pySorted {γ : Type} (le : γ → γ → Bool) : List γ → List γ
  | [] => []
  | x :: xs => pyInsert le x (pySorted le xs)

/-- `sort_models_by_error` (multimodel_evaluation.py, lines 89-118):
`errors = get_model_with_lowest_error(...)[2]`, then
`sorted_tensors = sorted(zip(errors, cp_tensors))`, returning the models and
the `np.asarray(error).item()`-coerced errors.  `meq`/`mlt` embed the
`==`/`<` operations of the model type, which Python tuple comparison invokes
when two error values compare equal. -/
def sort_models_by_error {α β : Type} (meq mlt : α → α → Bool)
    (cp_tensors : List α) (X : β) (error_function : α → β → ErrVal) :
    List α × List PyFloat :=
  let errors := (get_model_with_lowest_error cp_tensors X error_function).2.2
  let sorted_tensors := pySorted (pairLe meq mlt) (errors.zip cp_tensors)
  (sorted_tensors.map (fun p => p.2), sorted_tensors.map (fun p => p.1.item))

/-- Python tuple `<` on `(error, model)` pairs with a fallible model
comparison: `mlt? a b = none` models the `TypeError` raised when the model
objects do not support `<`.  The error components are compared first with
`==`; only on equality (and model `==` failing) is the model `<` consulted. -/
def pyTupleLt {α : Type} (meq : α → α → Bool) (mlt? : α → α → Option Bool)
    (p q : ErrVal × α) : Option Bool :=
  if ErrVal.beq p.1 q.1 then
    if meq p.2 q.2 then some false else mlt? p.2 q.2
  else
    some (ErrVal.blt p.1 q.1)

/-- The index (if any) selected by the running-minimum loop over a list of
error values, given the current `lowest_sse`: the last position at which the
strict comparison against the running minimum succeeds. -/
def selectLowest : List ErrVal → ErrVal → Option ℕ
  | [], _ => none
  | e :: es, lowest =>
    if ErrVal.blt e lowest then
      match selectLowest es e with
      | some j => some (j + 1)
      | none => some 0
    else
      (selectLowest es lowest).map (· + 1)

namespace ErrVal

theorem blt_self_false (a : ErrVal) : a.blt a = false := PyFloat.blt_irrefl _

theorem blt_asymm_val {a b : ErrVal} (h : a.blt b = true) : b.blt a = false :=
  PyFloat.blt_asymm h

theorem blt_trans_val {a b c : ErrVal} (h1 : a.blt b = true) (h2 : b.blt c = true) :
    a.blt c = true := PyFloat.blt_trans h1 h2

theorem blt_total_val {a b : ErrVal} (ha : a.value ≠ PyFloat.nan)
    (hb : b.value ≠ PyFloat.nan) :
    a.blt b = true ∨ b.blt a = true ∨ a.value = b.value :=
  PyFloat.blt_total ha hb

theorem blt_congr_left {a b c : ErrVal} (h : a.value = b.value) :
    a.blt c = b.blt c := by
  simp [blt, h]

end ErrVal

/-- The error list accumulated by the loop is the accumulator so far followed
by one error per remaining model, in order. -/
theorem gmleGo_all {α β : Type} (X : β) (ef : α → β → ErrVal) :
    ∀ (ts : List α) (i : ℕ) (sel : Option α) (selIdx : Option ℕ)
      (low : ErrVal) (all : List ErrVal),
      (gmleGo X ef ts i sel selIdx low all).2.2 =
        all ++ ts.map (fun t => ef t X) := by
  intro ts
  induction ts with
  | nil => intro i sel selIdx low all; simp [gmleGo]
  | cons t ts ih =>
    intro i sel selIdx low all
    simp only [gmleGo, List.map_cons]
    by_cases hb : ErrVal.blt (ef t X) low = true
    · rw [if_pos hb, ih]
      simp
    · rw [if_neg hb, ih]
      simp

/-- The loop's selection behaviour, reduced to `selectLowest` over the list
of error values: if no strict improvement over `low` ever happens the
accumulated selection is kept, otherwise the model and (offset) index at the
position `selectLowest` names are returned. -/
theorem gmleGo_eq_selectLowest {α β : Type} (X : β) (ef : α → β → ErrVal) :
    ∀ (ts : List α) (i : ℕ) (sel : Option α) (selIdx : Option ℕ)
      (low : ErrVal) (all : List ErrVal),
      gmleGo X ef ts i sel selIdx low all =
        match selectLowest (ts.map (fun t => ef t X)) low with
        | none => (sel, selIdx, all ++ ts.map (fun t => ef t X))
        | some j => (ts[j]?, some (i + j), all ++ ts.map (fun t => ef t X)) := by
  intro ts
  induction ts with
  | nil => intro i sel selIdx low all; simp [gmleGo, selectLowest]
  | cons t ts ih =>
    intro i sel selIdx low all
    simp only [gmleGo, List.map_cons, selectLowest]
    by_cases hb : ErrVal.blt (ef t X) low = true
    · rw [if_pos hb, if_pos hb, ih]
      cases hsl : selectLowest (ts.map (fun t => ef t X)) (ef t X) with
      | none => simp
      | some j =>
        simp only []
        have h1 : (t :: ts)[j + 1]? = ts[j]? := by simp
        have h2 : i + 1 + j = i + (j + 1) := by omega
        simp [h1, h2]
    · rw [if_neg hb, if_neg hb, ih]
      cases hsl : selectLowest (ts.map (fun t => ef t X)) low with
      | none => simp [hsl]
      | some j =>
        have h1 : (t :: ts)[j + 1]? = ts[j]? := by simp
        have h2 : i + 1 + j = i + (j + 1) := by omega
        simp [hsl, h1, h2]

/-- `selectLowest` finds nothing exactly when no error is strictly below the
running minimum it starts from. -/
theorem selectLowest_eq_none {es : List ErrVal} {low : ErrVal} :
    selectLowest es low = none ↔ ∀ e ∈ es, ErrVal.blt e low = false := by
  induction es generalizing low with
  | nil => simp [selectLowest]
  | cons e es ih =>
    simp only [selectLowest]
    by_cases hb : ErrVal.blt e low = true
    · rw [if_pos hb]
      constructor
      · intro h
        cases hsl : selectLowest es e <;> simp [hsl] at h
      · intro h
        have := h e (by simp)
        rw [hb] at this
        exact absurd this (by simp)
    · rw [if_neg hb]
      rw [Bool.not_eq_true] at hb
      simp [ih, hb]

/-- Running-minimum selection with a strict `<` picks precisely the FIRST
position achieving the minimum (strictly below the starting threshold),
provided no error value involved is `nan`. -/
theorem selectLowest_spec :
    ∀ (es : List ErrVal) (low : ErrVal), (∀ e ∈ es, e.value ≠ PyFloat.nan) →
    ∀ (j : ℕ), selectLowest es low = some j →
    ∃ hj : j < es.length,
      ErrVal.blt es[j] low = true ∧
      (∀ e ∈ es, ErrVal.blt e es[j] = false) ∧
      (∀ k (hk : k < es.length), k < j → ErrVal.blt es[j] es[k] = true) := by
  intro es
  induction es with
  | nil => intro low _ j h; simp [selectLowest] at h
  | cons e es ih =>
    intro low hn j h
    have hne : e.value ≠ PyFloat.nan := hn e (by simp)
    have hnes : ∀ x ∈ es, x.value ≠ PyFloat.nan := fun x hx => hn x (by simp [hx])
    simp only [selectLowest] at h
    by_cases hb : ErrVal.blt e low = true
    · rw [if_pos hb] at h
      cases hsl : selectLowest es e with
      | none =>
        rw [hsl] at h
        obtain rfl : (0 : ℕ) = j := by simpa using h
        refine ⟨by simp, ?_, ?_, ?_⟩
        · simpa using hb
        · intro x hx
          rcases List.mem_cons.1 hx with rfl | hx
          · simpa using ErrVal.blt_self_false x
          · simpa using selectLowest_eq_none.1 hsl x hx
        · intro k hk hk0; omega
      | some j' =>
        rw [hsl] at h
        obtain rfl : j' + 1 = j := by simpa using h
        obtain ⟨hj', h1, h2, h3⟩ := ih e hnes j' hsl
        refine ⟨by simpa using Nat.succ_lt_succ hj', ?_, ?_, ?_⟩
        · simpa using ErrVal.blt_trans_val h1 hb
        · intro x hx
          rcases List.mem_cons.1 hx with rfl | hx
          · simpa using ErrVal.blt_asymm_val h1
          · simpa using h2 x hx
        · intro k hk hkj
          match k, hk with
          | 0, hk => simpa using h1
          | k + 1, hk =>
            have := h3 k (by simpa using Nat.lt_of_succ_lt_succ hk)
              (Nat.lt_of_succ_lt_succ hkj)
            simpa using this
    · rw [if_neg hb] at h
      rw [Bool.not_eq_true] at hb
      obtain ⟨j', hsl, rfl⟩ := Option.map_eq_some'.1 h
      obtain ⟨hj', h1, h2, h3⟩ := ih low hnes j' hsl
      refine ⟨by simpa using Nat.succ_lt_succ hj', ?_, ?_, ?_⟩
      · simpa using h1
      · intro x hx
        rcases List.mem_cons.1 hx with rfl | hx
        · -- x = e, the skipped head: e is not strictly below the selected
          -- minimum, else transitivity would contradict `¬ (e < low)`.
          by_cases hc : ErrVal.blt x es[j'] = true
          · have := ErrVal.blt_trans_val hc h1
            rw [this] at hb
            exact absurd hb (by simp)
          · simpa using hc
        · simpa using h2 x hx
      · intro k hk hkj
        match k, hk with
        | 0, hk =>
          -- the selected error is strictly below the skipped head `e`
          have hjn : es[j'].value ≠ PyFloat.nan :=
            hnes _ (List.getElem_mem hj')
          rcases ErrVal.blt_total_val hjn hne with hlt | hlt | heqv
          · simpa using hlt
          · exact absurd (ErrVal.blt_trans_val hlt h1) (by simp [hb])
          · rw [ErrVal.blt_congr_left heqv] at h1
            rw [h1] at hb
            exact absurd hb (by simp)
        | k + 1, hk =>
          have := h3 k (by simpa using Nat.lt_of_succ_lt_succ hk)
            (Nat.lt_of_succ_lt_succ hkj)
          simpa using this

theorem pyInsert_perm {γ : Type} (le : γ → γ → Bool) (x : γ) (l : List γ) :
    List.Perm (pyInsert le x l) (x :: l) := by
  induction l with
  | nil => simp [pyInsert]
  | cons y ys ih =>
    simp only [pyInsert]
    by_cases h : le x y = true
    · rw [if_pos h]
    · rw [if_neg h]
      exact (ih.cons y).trans (List.Perm.swap x y ys)

theorem pySorted_perm {γ : Type} (le : γ → γ → Bool) (l : List γ) :
    List.Perm (pySorted le l) l := by
  induction l with
  | nil => simp [pySorted]
  | cons x xs ih => exact (pyInsert_perm le x (pySorted le xs)).trans (ih.cons x)

/-- Inserting into a list pairwise-ordered by `R` keeps it pairwise-ordered,
when the Boolean comparison decides `R` in both directions and `R` is
transitive through any element of the list satisfying `OK`. -/
theorem pyInsert_pairwise {γ : Type} {le : γ → γ → Bool} {R : γ → γ → Prop}
    {OK : γ → Prop}
    (htran : ∀ a b c, OK b → R a b → R b c → R a c)
    (hT : ∀ a b, le a b = true → R a b)
    (hF : ∀ a b, le a b = false → R b a) (x : γ) :
    ∀ (l : List γ), (∀ y ∈ l, OK y) → l.Pairwise R →
      (pyInsert le x l).Pairwise R := by
  intro l
  induction l with
  | nil => intro _ _; simp [pyInsert]
  | cons y ys ih =>
    intro hl hp
    rw [List.pairwise_cons] at hp
    obtain ⟨hy, hys⟩ := hp
    simp only [pyInsert]
    by_cases h : le x y = true
    · rw [if_pos h]
      refine List.Pairwise.cons ?_ (List.Pairwise.cons hy hys)
      intro z hz
      rcases List.mem_cons.1 hz with rfl | hz
      · exact hT x z h
      · exact htran x y z (hl y (by simp)) (hT x y h) (hy z hz)
    · rw [if_neg h]
      rw [Bool.not_eq_true] at h
      refine List.Pairwise.cons ?_ (ih (fun z hz => hl z (by simp [hz])) hys)
      intro z hz
      rcases List.mem_cons.1 ((pyInsert_perm le x ys).mem_iff.1 hz) with rfl | hz
      · exact hF z y h
      · exact hy z hz

/-- The stable ascending sort is pairwise-ordered by `R` under the same
conditions. -/
theorem pySorted_pairwise {γ : Type} {le : γ → γ → Bool} {R : γ → γ → Prop}
    {OK : γ → Prop}
    (htran : ∀ a b c, OK b → R a b → R b c → R a c)
    (hT : ∀ a b, le a b = true → R a b)
    (hF : ∀ a b, le a b = false → R b a) :
    ∀ (l : List γ), (∀ y ∈ l, OK y) → (pySorted le l).Pairwise R := by
  intro l
  induction l with
  | nil => intro _; simp [pySorted]
  | cons x xs ih =>
    intro hl
    exact pyInsert_pairwise htran hT hF x (pySorted le xs)
      (fun z hz => hl z (by
        simp [(pySorted_perm le xs).mem_iff.1 hz]))
      (ih (fun z hz => hl z (by simp [hz])))

/-- Whatever the model comparisons do, a `pairLe`-accepted pair has its
first error not strictly above the second: only equal-by-`==` errors ever
reach the model fallback, and equal errors are never strictly ordered. -/
theorem pairLe_not_blt_of_true {α : Type} {meq mlt : α → α → Bool}
    {p q : ErrVal × α} (h : pairLe meq mlt p q = true) :
    PyFloat.blt q.1.value p.1.value = false := by
  have hq : pairLt meq mlt q p = false := by
    simpa [pairLe] using h
  by_cases hbeq : ErrVal.beq q.1 p.1 = true
  · exact PyFloat.beq_blt_left hbeq
  · rw [pairLt, if_neg hbeq] at hq
    exact hq

/-- Dually, a `pairLe`-rejected pair has its second error not strictly
above the first. -/
theorem pairLe_not_blt_of_false {α : Type} {meq mlt : α → α → Bool}
    {p q : ErrVal × α} (h : pairLe meq mlt p q = false) :
    PyFloat.blt p.1.value q.1.value = false := by
  have hq : pairLt meq mlt q p = true := by
    simpa [pairLe] using h
  by_cases hbeq : ErrVal.beq q.1 p.1 = true
  · exact PyFloat.beq_blt_right hbeq
  · rw [pairLt, if_neg hbeq] at hq
    exact PyFloat.blt_asymm hq

/-- Zipping a mapped list with its source pairs every element with its
image. -/
theorem zip_map_self {α γ : Type} (f : α → γ) :
    ∀ (l : List α), (l.map f).zip l = l.map (fun a => (f a, a)) := by
  intro l
  induction l with
  | nil => simp
  | cons x xs ih => simp [ih]

/-- The third component of `get_model_with_lowest_error` is the list of
errors of all models, in input order. -/
theorem get_model_errors_eq {α β : Type} (cp_tensors : List α) (X : β)
    (ef : α → β → ErrVal) :
    (get_model_with_lowest_error cp_tensors X ef).2.2 =
      cp_tensors.map (fun m => ef m X) := by
  simpa using gmleGo_all X ef cp_tensors 0 none none (ErrVal.plain PyFloat.inf) []

/-- Every pair the sort of `sort_models_by_error` works on is an input model
together with its own error. -/
theorem sort_pairs_mem {α β : Type} (meq mlt : α → α → Bool)
    (cp_tensors : List α) (X : β) (ef : α → β → ErrVal) :
    ∀ p ∈ pySorted (pairLe meq mlt)
        (((get_model_with_lowest_error cp_tensors X ef).2.2).zip cp_tensors),
      p.1 = ef p.2 X ∧ p.2 ∈ cp_tensors := by
  intro p hp
  have hz := (pySorted_perm _ _).mem_iff.1 hp
  rw [get_model_errors_eq, zip_map_self] at hz
  obtain ⟨m, hm, rfl⟩ := List.mem_map.1 hz
  exact ⟨rfl, hm⟩

/-- The sorted pair list is a permutation of the models paired with their
errors. -/
theorem sort_pairs_perm {α β : Type} (meq mlt : α → α → Bool)
    (cp_tensors : List α) (X : β) (ef : α → β → ErrVal) :
    List.Perm
      (pySorted (pairLe meq mlt)
        (((get_model_with_lowest_error cp_tensors X ef).2.2).zip cp_tensors))
      (cp_tensors.map (fun m => (ef m X, m))) := by
  rw [get_model_errors_eq, zip_map_self]
  exact pySorted_perm _ _

/-- The total Python tuple comparison used by the sort is the fallible one in
the case where the model comparison does not raise. -/
theorem pyTupleLt_eq_pairLt {α : Type} (meq mlt : α → α → Bool)
    (p q : ErrVal × α) :
    pyTupleLt meq (fun a b => some (mlt a b)) p q = some (pairLt meq mlt p q) := by
  simp only [pyTupleLt, pairLt]
  by_cases h1 : ErrVal.beq p.1 q.1 = true
  · rw [if_pos h1, if_pos h1]
    by_cases h2 : meq p.2 q.2 = true
    · rw [if_pos h2, if_pos h2]
    · rw [if_neg h2, if_neg h2]
  · rw [if_neg h1, if_neg h1]

/-- Claim C3: `similarity_evaluation` returns one similarity per comparison
model, in input order, the i-th being the metric applied to the primary
model, the i-th comparison model, and the forwarded keyword options.  (The
embedding is a pure function of its arguments, so it cannot mutate any
input, and the i-th output arises from the single metric application shown.) -/
theorem C3_similarity_pointwise {α κ σ : Type} (cp_tensor : α)
    (comparison_cp_tensors : List α) (similarity_metric : α → α → κ → σ)
    (kwargs : κ) :
    (similarity_evaluation cp_tensor comparison_cp_tensors similarity_metric
        kwargs).length = comparison_cp_tensors.length ∧
    ∀ i : ℕ,
      (similarity_evaluation cp_tensor comparison_cp_tensors similarity_metric
          kwargs)[i]? =
        (comparison_cp_tensors[i]?).map
          (fun c => similarity_metric cp_tensor c kwargs) := by
  constructor
  · simp [similarity_evaluation]
  · intro i
    simp [similarity_evaluation]

/-- Claim C4: on an empty model list, `get_model_with_lowest_error` returns
`(None, None, [])` whatever the dataset and the error function; since the
result is the same for every error function, the error function is never
consulted. -/
theorem C4_empty_input {α β : Type} (X : β) (ef : α → β → ErrVal) :
    get_model_with_lowest_error ([] : List α) X ef = (none, none, []) := rfl

/-- Claim C5: the error list returned by `get_model_with_lowest_error` has
exactly one entry per input model, in input order, the i-th being
`error_function(models[i], dataset)` — also on the empty list. -/
theorem C5_error_list {α β : Type} (cp_tensors : List α) (X : β)
    (ef : α → β → ErrVal) :
    (get_model_with_lowest_error cp_tensors X ef).2.2 =
      cp_tensors.map (fun m => ef m X) ∧
    (get_model_with_lowest_error cp_tensors X ef).2.2.length =
      cp_tensors.length ∧
    ∀ i : ℕ,
      ((get_model_with_lowest_error cp_tensors X ef).2.2)[i]? =
        (cp_tensors[i]?).map (fun m => ef m X) := by
  refine ⟨get_model_errors_eq cp_tensors X ef, ?_, ?_⟩
  · rw [get_model_errors_eq]; simp
  · intro i
    rw [get_model_errors_eq]
    simp

/-- Claim C9: when no computed error compares strictly below `np.inf` (for
instance when every error is `+inf` or `nan`), the running minimum never
updates, so even for a non-empty model list the selected model and index are
both `None`, while the full error list is still returned. -/
theorem C9_no_improvement {α β : Type} (cp_tensors : List α) (X : β)
    (ef : α → β → ErrVal) (hne : cp_tensors ≠ [])
    (h : ∀ m ∈ cp_tensors,
      ErrVal.blt (ef m X) (ErrVal.plain PyFloat.inf) = false) :
    get_model_with_lowest_error cp_tensors X ef =
      (none, none, cp_tensors.map (fun m => ef m X)) := by
  have hnone : selectLowest (cp_tensors.map (fun m => ef m X))
      (ErrVal.plain PyFloat.inf) = none := by
    refine selectLowest_eq_none.2 ?_
    intro e he
    obtain ⟨m, hm, rfl⟩ := List.mem_map.1 he
    exact h m hm
  rw [get_model_with_lowest_error, gmleGo_eq_selectLowest, hnone]
  simp

/-- The error function of the all-errors-infinite-or-nan witness for C9. -/
def efNoFinite (m : ℕ) (_ : Unit) : ErrVal :=
  if m = 0 then ErrVal.plain PyFloat.inf else ErrVal.plain PyFloat.nan

theorem C9_witness :
    (([0, 1] : List ℕ) ≠ [] ∧
      ∀ m ∈ ([0, 1] : List ℕ),
        ErrVal.blt (efNoFinite m ()) (ErrVal.plain PyFloat.inf) = false) ∧
    get_model_with_lowest_error [0, 1] () efNoFinite =
      (none, none, [ErrVal.plain PyFloat.inf, ErrVal.plain PyFloat.nan]) := by
  refine ⟨⟨by decide, by decide⟩, ?_⟩
  have h := C9_no_improvement [0, 1] () efNoFinite (by decide) (by decide)
  simpa [efNoFinite] using h

/-- Claim C1, counterexample to the quantification "for every non-empty list
of models and every error function": with the single model `0` and an error
function returning `+inf`, the code returns the `None` sentinel for both
model and index instead of the model achieving the minimum of the error
sequence (which would be model `0` at index `0`), because `inf < inf` is
`False` and the running best is never set. -/
theorem C1_counterexample :
    get_model_with_lowest_error ([0] : List ℕ) ()
        (fun _ _ => ErrVal.plain PyFloat.inf) =
      (none, none, [ErrVal.plain PyFloat.inf]) ∧
    (none : Option ℕ) ≠
      some (([0] : List ℕ).get ⟨0, by decide⟩) := by
  constructor
  · rfl
  · simp

/-- Claim C1 (amended): for every non-empty list of models and every error
function none of whose computed errors is `nan` and at least one of whose
computed errors is strictly below `+inf`, `get_model_with_lowest_error`
returns the model and integer index of the first occurrence of the minimum
error — a later model replaces the running best only when its error is
strictly smaller (strict `<`), so the returned error is minimal among all
computed errors and strictly below every error occurring earlier — together
with the full error list `[5, 2, 8, 2]`-style in input order. -/
theorem C1_first_minimum {α β : Type} (cp_tensors : List α) (X : β)
    (ef : α → β → ErrVal) (hne : cp_tensors ≠ [])
    (hnan : ∀ m ∈ cp_tensors, (ef m X).value ≠ PyFloat.nan)
    (hfin : ∃ m ∈ cp_tensors,
      ErrVal.blt (ef m X) (ErrVal.plain PyFloat.inf) = true) :
    ∃ i, ∃ hi : i < cp_tensors.length,
      get_model_with_lowest_error cp_tensors X ef =
        (some cp_tensors[i], some i, cp_tensors.map (fun m => ef m X)) ∧
      (∀ m ∈ cp_tensors,
        ErrVal.blt (ef m X) (ef cp_tensors[i] X) = false) ∧
      (∀ j, ∀ hj : j < cp_tensors.length, j < i →
        ErrVal.blt (ef cp_tensors[i] X) (ef cp_tensors[j] X) = true) := by
  have hnan' : ∀ e ∈ cp_tensors.map (fun m => ef m X),
      e.value ≠ PyFloat.nan := by
    intro e he
    obtain ⟨m, hm, rfl⟩ := List.mem_map.1 he
    exact hnan m hm
  cases hsl : selectLowest (cp_tensors.map (fun m => ef m X))
      (ErrVal.plain PyFloat.inf) with
  | none =>
    obtain ⟨m, hm, hblt⟩ := hfin
    have := selectLowest_eq_none.1 hsl (ef m X) (List.mem_map_of_mem _ hm)
    rw [hblt] at this
    exact absurd this (by simp)
  | some j =>
    obtain ⟨hj, h1, h2, h3⟩ := selectLowest_spec _ _ hnan' j hsl
    have hj' : j < cp_tensors.length := by simpa using hj
    refine ⟨j, hj', ?_, ?_, ?_⟩
    · rw [get_model_with_lowest_error, gmleGo_eq_selectLowest, hsl]
      simp [List.getElem?_eq_getElem hj']
    · intro m hm
      have := h2 (ef m X) (List.mem_map_of_mem _ hm)
      simpa using this
    · intro k hk hkj
      have := h3 k (by simpa using hk) hkj
      simpa using this

/-- The error function of the known-errors `[5, 2, 8, 2]` example. -/
def efKnown (m : ℕ) (_ : Unit) : ErrVal :=
  ErrVal.plain (PyFloat.num (([5, 2, 8, 2] : List ℚ).getD m 0))

theorem C1_witness :
    ∃ i, ∃ hi : i < ([0, 1, 2, 3] : List ℕ).length,
      get_model_with_lowest_error [0, 1, 2, 3] () efKnown =
        (some ([0, 1, 2, 3] : List ℕ)[i], some i,
          [0, 1, 2, 3].map (fun m => efKnown m ())) ∧
      (∀ m ∈ ([0, 1, 2, 3] : List ℕ),
        ErrVal.blt (efKnown m ())
          (efKnown ([0, 1, 2, 3] : List ℕ)[i] ()) = false) ∧
      (∀ j, ∀ hj : j < ([0, 1, 2, 3] : List ℕ).length, j < i →
        ErrVal.blt (efKnown ([0, 1, 2, 3] : List ℕ)[i] ())
          (efKnown ([0, 1, 2, 3] : List ℕ)[j] ()) = true) :=
  C1_first_minimum [0, 1, 2, 3] () efKnown (by decide) (by decide) (by decide)

/-- Unfolding of `sort_models_by_error` into the sorted pair list. -/
theorem sort_models_by_error_eq {α β : Type} (meq mlt : α → α → Bool)
    (cp_tensors : List α) (X : β) (ef : α → β → ErrVal) :
    sort_models_by_error meq mlt cp_tensors X ef =
      ((pySorted (pairLe meq mlt)
          (((get_model_with_lowest_error cp_tensors X ef).2.2).zip
            cp_tensors)).map (fun p => p.2),
       (pySorted (pairLe meq mlt)
          (((get_model_with_lowest_error cp_tensors X ef).2.2).zip
            cp_tensors)).map (fun p => p.1.item)) := rfl

/-- Claim C6: the error sequence `sort_models_by_error` sorts is exactly the
one `get_model_with_lowest_error` collects on the same input — observably,
the returned (coerced) errors are a rearrangement of the coerced third
component of `get_model_with_lowest_error`, and on empty input both
functions exhibit their empty behaviour. -/
theorem C6_shared_error_collection {α β : Type} (meq mlt : α → α → Bool)
    (cp_tensors : List α) (X : β) (ef : α → β → ErrVal) :
    List.Perm (sort_models_by_error meq mlt cp_tensors X ef).2
      (((get_model_with_lowest_error cp_tensors X ef).2.2).map ErrVal.item) ∧
    sort_models_by_error meq mlt ([] : List α) X ef = ([], []) ∧
    get_model_with_lowest_error ([] : List α) X ef = (none, none, []) := by
  refine ⟨?_, rfl, rfl⟩
  rw [sort_models_by_error_eq]
  refine ((sort_pairs_perm meq mlt cp_tensors X ef).map
    (fun p => p.1.item)).trans ?_
  rw [List.map_map, get_model_errors_eq, List.map_map]
  simp only [Function.comp_def]
  exact List.Perm.refl _

/-- Claim C10: the model list returned by `sort_models_by_error` is a
permutation of the input model list — nothing is dropped or duplicated. -/
theorem C10_models_permutation {α β : Type} (meq mlt : α → α → Bool)
    (cp_tensors : List α) (X : β) (ef : α → β → ErrVal) :
    List.Perm (sort_models_by_error meq mlt cp_tensors X ef).1 cp_tensors := by
  rw [sort_models_by_error_eq]
  refine ((sort_pairs_perm meq mlt cp_tensors X ef).map (fun p => p.2)).trans ?_
  rw [List.map_map]
  have heq : cp_tensors.map
      ((fun p : ErrVal × α => p.2) ∘ (fun m => (ef m X, m))) = cp_tensors := by
    simp only [Function.comp_def]
    simp
  rw [heq]

/-- Claim C2, counterexample to the quantification "for every list of models
and every error function": with models `[0, 1]`, an error function giving
model `0` the error `nan` and model `1` the error `1.0`, the sort leaves the
`nan` first (every comparison against `nan` is `False`), so the returned
error sequence `[nan, 1.0]` is not non-decreasing — `nan <= 1.0` is `False`
for Python floats. -/
theorem C2_counterexample :
    sort_models_by_error (fun a b => a == b) (fun a b => decide (a < b))
        ([0, 1] : List ℕ) ()
        (fun m _ => if m = 0 then ErrVal.plain PyFloat.nan
          else ErrVal.plain (PyFloat.num 1)) =
      ([0, 1], [PyFloat.nan, PyFloat.num 1]) ∧
    PyFloat.ble PyFloat.nan (PyFloat.num 1) = false := by
  constructor
  · rfl
  · rfl

/-- Claim C2 (amended): for every list of models and every error function
none of whose computed errors is `nan`, `sort_models_by_error` returns two
sequences of the same length as the input, the returned error sequence is
non-decreasing, the i-th returned error is the (scalar-coerced) error of the
i-th returned model under the error function, and on empty input both
outputs are empty. -/
theorem C2_sorted_correspondence {α β : Type} (meq mlt : α → α → Bool)
    (cp_tensors : List α) (X : β) (ef : α → β → ErrVal)
    (hnan : ∀ m ∈ cp_tensors, (ef m X).value ≠ PyFloat.nan) :
    (sort_models_by_error meq mlt cp_tensors X ef).1.length =
      cp_tensors.length ∧
    (sort_models_by_error meq mlt cp_tensors X ef).2.length =
      cp_tensors.length ∧
    List.Pairwise (fun a b => PyFloat.ble a b = true)
      (sort_models_by_error meq mlt cp_tensors X ef).2 ∧
    (∀ i : ℕ,
      ((sort_models_by_error meq mlt cp_tensors X ef).2)[i]? =
        (((sort_models_by_error meq mlt cp_tensors X ef).1)[i]?).map
          (fun m => (ef m X).item)) ∧
    (cp_tensors = [] →
      sort_models_by_error meq mlt cp_tensors X ef = ([], [])) := by
  have hmem := sort_pairs_mem meq mlt cp_tensors X ef
  have hOK : ∀ p ∈ pySorted (pairLe meq mlt)
      (((get_model_with_lowest_error cp_tensors X ef).2.2).zip cp_tensors),
      p.1.value ≠ PyFloat.nan := by
    intro p hp
    rw [(hmem p hp).1]
    exact hnan p.2 (hmem p hp).2
  have hlen : (pySorted (pairLe meq mlt)
      (((get_model_with_lowest_error cp_tensors X ef).2.2).zip
        cp_tensors)).length = cp_tensors.length := by
    rw [(sort_pairs_perm meq mlt cp_tensors X ef).length_eq, List.length_map]
  refine ⟨?_, ?_, ?_, ?_, ?_⟩
  · rw [sort_models_by_error_eq]
    simpa using hlen
  · rw [sort_models_by_error_eq]
    simpa using hlen
  · rw [sort_models_by_error_eq]
    have hOKzip : ∀ p ∈ ((get_model_with_lowest_error cp_tensors X ef).2.2).zip
        cp_tensors, p.1.value ≠ PyFloat.nan := by
      intro p hp
      exact hOK p ((pySorted_perm _ _).mem_iff.2 hp)
    have hpair : (pySorted (pairLe meq mlt)
        (((get_model_with_lowest_error cp_tensors X ef).2.2).zip
          cp_tensors)).Pairwise
        (fun p q : ErrVal × α => PyFloat.blt q.1.value p.1.value = false) :=
      @pySorted_pairwise (ErrVal × α) (pairLe meq mlt)
        (fun p q => PyFloat.blt q.1.value p.1.value = false)
        (fun p => p.1.value ≠ PyFloat.nan)
        (fun a b c hb h1 h2 => PyFloat.not_blt_trans hb h1 h2)
        (fun a b h => pairLe_not_blt_of_true h)
        (fun a b h => pairLe_not_blt_of_false h)
        (((get_model_with_lowest_error cp_tensors X ef).2.2).zip cp_tensors)
        hOKzip
    rw [List.pairwise_map]
    refine List.Pairwise.imp_of_mem ?_ hpair
    intro p q hp hq h
    exact PyFloat.ble_of_not_blt (hOK p hp) (hOK q hq) h
  · intro i
    rw [sort_models_by_error_eq]
    simp only [List.getElem?_map, Option.map_map]
    cases hSi : (pySorted (pairLe meq mlt)
        (((get_model_with_lowest_error cp_tensors X ef).2.2).zip
          cp_tensors))[i]? with
    | none => rfl
    | some p =>
      have hpmem : p ∈ pySorted (pairLe meq mlt)
          (((get_model_with_lowest_error cp_tensors X ef).2.2).zip
            cp_tensors) := by
        obtain ⟨hlt, rfl⟩ := List.getElem?_eq_some_iff.1 hSi
        exact List.getElem_mem hlt
      simp only [Option.map_some', Function.comp_def]
      rw [(hmem p hpmem).1]
  · intro h
    subst h
    rfl

/-- The error function of the shuffled-errors `[30, 10, 40, 20]` example. -/
def efShuffled (m : ℕ) (_ : Unit) : ErrVal :=
  ErrVal.plain (PyFloat.num (([30, 10, 40, 20] : List ℚ).getD m 0))

theorem C2_witness :
    (∀ m ∈ ([0, 1, 2, 3] : List ℕ), (efShuffled m ()).value ≠ PyFloat.nan) ∧
    List.Pairwise (fun a b => PyFloat.ble a b = true)
      (sort_models_by_error (fun a b => a == b) (fun a b => decide (a < b))
        [0, 1, 2, 3] () efShuffled).2 ∧
    sort_models_by_error (fun a b => a == b) (fun a b => decide (a < b))
      [0, 1, 2, 3] () efShuffled =
      ([1, 3, 0, 2],
       [PyFloat.num 10, PyFloat.num 20, PyFloat.num 30, PyFloat.num 40]) :=
  ⟨by decide,
   (C2_sorted_correspondence (fun a b => a == b) (fun a b => decide (a < b))
     [0, 1, 2, 3] () efShuffled (by decide)).2.2.1,
   by decide⟩

/-- Claim C8: when the error function returns boxed/labelled scalar wrappers,
the error sequence returned by `sort_models_by_error` consists of the plain
float values extracted from those wrappers — the i-th returned error is the
unwrapped value of the error of the i-th returned model — while the models
themselves are returned unmodified (each returned model is an input model,
still carrying its boxed error under the error function). -/
theorem C8_boxed_scalar_coercion {α β : Type} (meq mlt : α → α → Bool)
    (cp_tensors : List α) (X : β) (ef : α → β → ErrVal)
    (hb : ∀ m ∈ cp_tensors, (ef m X).isBoxed = true) :
    (sort_models_by_error meq mlt cp_tensors X ef).2 =
      ((sort_models_by_error meq mlt cp_tensors X ef).1).map
        (fun m => (ef m X).value) ∧
    ∀ m ∈ (sort_models_by_error meq mlt cp_tensors X ef).1,
      m ∈ cp_tensors ∧ (ef m X).isBoxed = true := by
  have hmem := sort_pairs_mem meq mlt cp_tensors X ef
  constructor
  · rw [sort_models_by_error_eq]
    simp only [List.map_map, Function.comp_def]
    refine List.map_congr_left ?_
    intro p hp
    rw [ErrVal.item, (hmem p hp).1]
  · intro m hm
    rw [sort_models_by_error_eq] at hm
    obtain ⟨p, hp, rfl⟩ := List.mem_map.1 hm
    exact ⟨(hmem p hp).2, hb p.2 (hmem p hp).2⟩

/-- The boxed-scalar error function of the C8 witness. -/
def efBoxed (m : ℕ) (_ : Unit) : ErrVal :=
  ErrVal.boxed (PyFloat.num ((m : ℚ) + 1))

theorem C8_witness :
    (∀ m ∈ ([0, 1] : List ℕ), (efBoxed m ()).isBoxed = true) ∧
    ((sort_models_by_error (fun a b => a == b) (fun a b => decide (a < b))
        [0, 1] () efBoxed).2 =
      ((sort_models_by_error (fun a b => a == b) (fun a b => decide (a < b))
        [0, 1] () efBoxed).1).map (fun m => (efBoxed m ()).value) ∧
    ∀ m ∈ (sort_models_by_error (fun a b => a == b) (fun a b => decide (a < b))
        [0, 1] () efBoxed).1,
      m ∈ ([0, 1] : List ℕ) ∧ (efBoxed m ()).isBoxed = true) :=
  ⟨by decide,
   C8_boxed_scalar_coercion (fun a b => a == b) (fun a b => decide (a < b))
     [0, 1] () efBoxed (by decide)⟩

/-- Claim C7: in the tuple comparison `sort_models_by_error` sorts by, two
pairs whose error values compare equal (and whose models are not equal) are
ordered by the comparison the model objects provide — including its failure:
if the models are incomparable (the comparison raises, embedded as `none`),
the tuple comparison itself fails, so the sort may fail. -/
theorem C7_tie_falls_back_to_models {α : Type} (meq : α → α → Bool)
    (mq : α → α → Option Bool) (e1 e2 : ErrVal) (m1 m2 : α)
    (heq : ErrVal.beq e1 e2 = true) (hne : meq m1 m2 = false) :
    pyTupleLt meq mq (e1, m1) (e2, m2) = mq m1 m2 := by
  simp [pyTupleLt, heq, hne]

theorem C7_witness :
    (ErrVal.beq (ErrVal.boxed (PyFloat.num 3))
        (ErrVal.plain (PyFloat.num 3)) = true ∧
      ((fun (a b : ℕ) => a == b) 0 1) = false) ∧
    pyTupleLt (fun (a b : ℕ) => a == b) (fun _ _ => none)
      (ErrVal.boxed (PyFloat.num 3), (0 : ℕ))
      (ErrVal.plain (PyFloat.num 3), 1) = none :=
  ⟨⟨by decide, by decide⟩,
   C7_tie_falls_back_to_models (fun a b => a == b) (fun _ _ => none)
     (ErrVal.boxed (PyFloat.num 3)) (ErrVal.plain (PyFloat.num 3)) 0 1
     (by decide) (by decide)⟩
